import Mathlib

/-!
Shallow embedding of the SECS archetype-based entity component storage engine
(files src/impl/EntityRecord.hpp, src/impl/Archetype.hpp, src/impl/Component.hpp,
src/impl/EntityReference.hpp, src/impl/World.hpp) and proofs about it.

Machine integers: the engine uses uint16_t (Index) for slot indices, rows and
generations; generations wrap modulo 2^16, modelled as Nat with an explicit
percent 65536.  Component values are modelled as Nat (the engine is agnostic to
the payload type: the type-erased column operations move and default-construct
elements, which is modelled as list updates with default value 0).  Allocation
success or failure of the C++ new operator is an explicit Bool parameter; the
code under test signals failure through return values, never by aborting.
-/

namespace SECS

/-- Sentinel index: the C++ value is the all-ones uint16_t, 65535. -/
def InvalidIndex : Nat := 65535

/-- One Slot Table entry (class EntityRecord in EntityRecord.hpp): which
archetype block owns the entity, which row it occupies, and the generation
counter bumped on release.  Field defaults mirror the member initializers. -/
structure EntityRecord where
  archetype : Nat
  row : Nat
  version : Nat
deriving DecidableEq, Repr

instance : Inhabited EntityRecord := ⟨⟨InvalidIndex, InvalidIndex, 0⟩⟩

/-- One archetype block (class ArchetypeManager): its signature, one column
list per component slot, the parallel row-to-slot array recordIndices, and the
capacity and size counters. -/
structure ArchBlock where
  sig : Nat
  cols : List (List Nat)
  recordIndices : List Nat
  capacity : Nat
  size : Nat
deriving DecidableEq, Repr

instance : Inhabited ArchBlock := ⟨⟨0, [], [], 0, 0⟩⟩

/-- The static state of the engine: the Slot Table backing array with its
capacity, active range bound last and free list (top of the std::stack is the
list head), plus the archetype blocks in creation order. -/
structure WorldState where
  records : List EntityRecord
  last : Nat
  capacity : Nat
  freeList : List Nat
  archs : List ArchBlock
deriving DecidableEq, Repr

/-- The trailing coalescing loop of EntityRecord::Release: while the active
range is nonempty and the top of the free list is the new highest index, pop
it and shrink the range.  Structural recursion on the free list (each
iteration pops exactly one entry). -/
def shrinkLoop : Nat → List Nat → Nat × List Nat
  | l, [] => (l, [])
  | l, f :: fs => if 0 < l ∧ f = l - 1 then shrinkLoop (l - 1) fs else (l, f :: fs)

/-- EntityRecord::Release on slot i: clear archetype and row to the sentinel,
bump the generation (uint16_t wrap), then either shrink the active range (when
i is the highest active index, i + 1 = last) running the coalescing loop, or
push i onto the free list. -/
def EntityRecord.Release (w : WorldState) (i : Nat) : WorldState :=
  let r := w.records.getD i default
  let records2 := w.records.set i
    { archetype := InvalidIndex, row := InvalidIndex, version := (r.version + 1) % 65536 }
  if i + 1 = w.last then
    { w with records := records2,
             last := (shrinkLoop (w.last - 1) w.freeList).1,
             freeList := (shrinkLoop (w.last - 1) w.freeList).2 }
  else
    { w with records := records2, freeList := i :: w.freeList }

/-- Result of EntityRecord::Reserve: either the index of the reserved slot
together with the updated state, or (on allocation failure) the static
invalid record the C++ code returns instead. -/
inductive ReserveResult where
  | ok (index : Nat) (w : WorldState)
  | fail (r : EntityRecord)
deriving DecidableEq, Repr

/-- EntityRecord::Reserve: pop the free list if nonempty; otherwise grow the
backing array when the active range is exhausted (capacity = 0 gives 2, else
capacity * 2 - capacity / 2, moving the existing records and default
constructing the rest) and take the next unused index.  allocOk models the
success of the new operator. -/
def EntityRecord.Reserve (allocOk : Bool) (w : WorldState) : ReserveResult :=
  match w.freeList with
  | i :: rest => .ok i { w with freeList := rest }
  | [] =>
    if w.capacity ≤ w.last then
      let newCap := if w.capacity = 0 then 2 else w.capacity * 2 - w.capacity / 2
      if allocOk then
        let records2 := w.records.take w.capacity
          ++ List.replicate (newCap - w.capacity) default
        let w2 := { w with capacity := newCap, records := records2 }
        .ok w2.last { w2 with last := w2.last + 1 }
      else
        .fail { archetype := InvalidIndex, row := InvalidIndex, version := InvalidIndex }
    else
      .ok w.last { w with last := w.last + 1 }

/-- Component::MoveElement for a move within one column (the RemoveRow use):
the destination element receives the source element and the source element is
reset to the default constructed value. -/
def Component.MoveElement (col : List Nat) (dstPos srcPos : Nat) : List Nat :=
  (col.set dstPos (col.getD srcPos 0)).set srcPos 0

/-- Component::ResizeArray: allocate a fresh array of newSize default
elements, move the first moveCount elements of the original into it; returns
none exactly when allocation fails (the C++ function returns false). -/
def Component.ResizeArray (allocOk : Bool) (arr : List Nat) (newSize moveCount : Nat) :
    Option (List Nat) :=
  if allocOk then some (arr.take moveCount ++ List.replicate (newSize - moveCount) 0) else none

/-- The capacity growth rule shared by the Slot Table and the archetype
blocks: 2 when empty, otherwise capacity * 2 - capacity / 2. -/
def growCapacity (c : Nat) : Nat := if c = 0 then 2 else c * 2 - c / 2

/-- Success path of ResizeArray, used by ReserveRecord when growing a block. -/
def Component.ResizeArrayOk (arr : List Nat) (newSize moveCount : Nat) : List Nat :=
  arr.take moveCount ++ List.replicate (newSize - moveCount) 0

/-- The block-local part of ArchetypeManager::ReserveRecord: when full, grow
the capacity, realloc recordIndices (preserving the first capacity entries)
and resize every column (preserving the first size elements); then link the
new row to the given slot index and increment size. -/
def ArchBlock.reserveRow (blk : ArchBlock) (recIdx : Nat) : ArchBlock :=
  let blk2 :=
    if blk.capacity ≤ blk.size then
      let newCap := growCapacity blk.capacity
      { blk with
          capacity := newCap,
          recordIndices := blk.recordIndices.take blk.capacity
            ++ List.replicate (newCap - blk.capacity) 0,
          cols := blk.cols.map (fun col => Component.ResizeArrayOk col newCap blk.size) }
    else blk
  { blk2 with recordIndices := blk2.recordIndices.set blk2.size recIdx, size := blk2.size + 1 }

/-- Write one value per column at a fixed row: the component initialisation a
World::CreateEntity lambda performs right after ReserveRecord.  The first
argument of g is the column position. -/
def writeCols (row : Nat) (g : Nat → Nat) : Nat → List (List Nat) → List (List Nat)
  | _, [] => []
  | j, col :: rest => col.set row (g j) :: writeCols row g (j + 1) rest

/-- Reserve a row in the block and write g j into column j at the new row. -/
def ArchBlock.insertValue (blk : ArchBlock) (g : Nat → Nat) : ArchBlock :=
  let row := blk.size
  let blk2 := blk.reserveRow 0
  { blk2 with cols := writeCols row g 0 blk2.cols }

/-- Insert n entities in a row; the entity inserted at step m carries value
f m j in column j. -/
def ArchBlock.insertN (blk : ArchBlock) (f : Nat → Nat → Nat) : Nat → ArchBlock
  | 0 => blk
  | n + 1 => (blk.insertN f n).insertValue (f n)

/-- A freshly created block with k columns: every column empty, capacity and
size zero (the columns of a new ArchetypeManager are null until first use). -/
def ArchBlock.mkEmpty (k : Nat) : ArchBlock :=
  { sig := 0, cols := List.replicate k [], recordIndices := [], capacity := 0, size := 0 }

/-- Read the value stored in column c at the given row of a block. -/
def ArchBlock.readVal (blk : ArchBlock) (c row : Nat) : Nat :=
  (blk.cols.getD c []).getD row 0

/-- ArchetypeManager::RemoveRow on block a: decrement size; when the removed
row is not the last occupied row, move every column element of the last row
into it, release the Slot Table entry of the removed row, repoint the entry
of the relocated row and update recordIndices.  When the removed row is the
last occupied row the code only decrements size. -/
def ArchetypeManager.RemoveRow (w : WorldState) (a row : Nat) : WorldState :=
  let blk := w.archs.getD a default
  let size2 := if blk.size ≠ 0 then blk.size - 1 else blk.size
  let lastRow := size2
  if row ≠ lastRow then
    let cols2 := blk.cols.map (fun col => Component.MoveElement col row lastRow)
    let recIdxRow := blk.recordIndices.getD row 0
    let recIdxLast := blk.recordIndices.getD lastRow 0
    let w1 := EntityRecord.Release w recIdxRow
    let movedRec := { w1.records.getD recIdxLast default with row := row }
    let w2 := { w1 with records := w1.records.set recIdxLast movedRec }
    let recordIndices2 := blk.recordIndices.set row recIdxLast
    let blk2 := { blk with size := size2, cols := cols2, recordIndices := recordIndices2 }
    { w2 with archs := w2.archs.set a blk2 }
  else
    { w with archs := w.archs.set a { blk with size := size2 } }

/-- The caller-facing handle (class EntityReference): a slot index plus the
generation observed at creation. -/
structure EntityReference where
  recordIndex : Nat
  version : Nat
deriving DecidableEq, Repr

/-- EntityReference::Destroy: a no-op when the cached index was already
consumed; otherwise consume the cached index and, only when the stored
generation still matches the slot, perform RemoveRow on the owning block. -/
def EntityReference.Destroy (h : EntityReference) (w : WorldState) :
    EntityReference × WorldState :=
  if h.recordIndex ≠ InvalidIndex then
    let record := w.records.getD h.recordIndex default
    if h.version = record.version then
      (⟨InvalidIndex, h.version⟩, ArchetypeManager.RemoveRow w record.archetype record.row)
    else
      (⟨InvalidIndex, h.version⟩, w)
  else (h, w)

/-- EntityReference::Access: none models returning false without running the
user operation; some (op a r) models returning true after running it on the
resolved archetype index and row. -/
def EntityReference.AccessWith (h : EntityReference) (w : WorldState)
    (op : Nat → Nat → Nat) : Option Nat :=
  if h.recordIndex ≠ InvalidIndex then
    let record := w.records.getD h.recordIndex default
    if h.version = record.version then some (op record.archetype record.row) else none
  else none

/-- Access specialised to reading one component value of the resolved row. -/
def EntityReference.ReadComponent (h : EntityReference) (w : WorldState) (c : Nat) :
    Option Nat :=
  if h.recordIndex ≠ InvalidIndex then
    let record := w.records.getD h.recordIndex default
    if h.version = record.version then
      some ((w.archs.getD record.archetype default).readVal c record.row)
    else none
  else none

/-- ArchetypeManager::Contains: the block with signature sig satisfies the
requested signature expected iff the bitmask subset test holds. -/
def ArchetypeManager.Contains (sig expected : Nat) : Bool :=
  (sig &&& expected) == expected

/-- State of one LookupCacheImplementation instantiation: the scan cursor and
the matched block indices collected so far. -/
structure LookupCacheState where
  lastIndexChecked : Nat
  matchedIndices : List Nat
deriving DecidableEq, Repr

/-- The scan loop of LookupCacheImplementation::Update: walk the listed block
signatures, i being the index of the first of them, and collect the indices
of the blocks containing q. -/
def updateScan (q : Nat) : Nat → List Nat → List Nat
  | _, [] => []
  | i, s :: rest =>
    if ArchetypeManager.Contains s q then i :: updateScan q (i + 1) rest
    else updateScan q (i + 1) rest

/-- LookupCacheImplementation::Update over the creation-ordered block
signatures sigs: when blocks were created since the last call, scan only
those, append the matches and move the cursor to the end. -/
def LookupCacheState.Update (c : LookupCacheState) (sigs : List Nat) (q : Nat) :
    LookupCacheState :=
  if c.lastIndexChecked < sigs.length then
    { lastIndexChecked := sigs.length,
      matchedIndices := c.matchedIndices
        ++ updateScan q c.lastIndexChecked (sigs.drop c.lastIndexChecked) }
  else c

/-- Specification-side description of the cache contents: exactly the indices
of the blocks whose signature contains q, each once, in creation order. -/
def matchedIndicesSpec (q : Nat) (sigs : List Nat) : List Nat :=
  (List.range sigs.length).filter (fun i => ArchetypeManager.Contains (sigs.getD i 0) q)

/-- Component::IdBinary: the single-bit binary id of the component with
sequential id n. -/
def Component.IdBinary (n : Nat) : Nat := 1 <<< n

/-- The fold (IdBinary T or ...) computing a signature from a list of
component ids. -/
def foldSig (l : List Nat) : Nat := l.foldr (fun i acc => Component.IdBinary i ||| acc) 0

/-- The signature ArchetypeManager::Helper computes for a component list:
canonicalise by sorting on the component id, then or the binary ids. -/
def signatureOf (l : List Nat) : Nat := foldSig (List.insertionSort (· ≤ ·) l)

/-- ArchetypeManager::Find over the list of existing block signatures: linear
scan for the signature; on a miss append a new block and return the old
length.  Returns the block index and the updated block list. -/
def ArchetypeManager.Find (managers : List Nat) (id : Nat) : Nat × List Nat :=
  match managers.findIdx? (fun m => m == id) with
  | some i => (i, managers)
  | none => (managers.length, managers ++ [id])

/-- ArchetypeManager::Unused, the all-ones uint8_t sentinel for a component
absent from the block. -/
def ArchetypeManager.Unused : Nat := 255

/-- The member initializer of the internalIndex array, InternalIndex
internalIndex[MaxComponentTypes] = brace Unused brace: aggregate
initialisation sets element 0 to Unused and value-initialises the remaining
elements to 0. -/
def initInternalIndex : Nat → Nat := fun i => if i = 0 then ArchetypeManager.Unused else 0

/-- The EachComponent do-while loop of the ArchetypeManager(BinaryId)
constructor: walk the bits of sig from bit compId upward, assigning the
running count to internalIndex at every set bit.  BinaryId is 64 bits wide so
the shift loop runs at most 64 times; fuel bounds the iteration count. -/
def assignLoop : Nat → Nat → Nat → Nat → (Nat → Nat) → (Nat → Nat)
  | 0, _, _, _, idx => idx
  | fuel + 1, sig, compId, count, idx =>
    let idx2 := if sig % 2 = 1 then (fun j => if j = compId then count else idx j) else idx
    let count2 := if sig % 2 = 1 then count + 1 else count
    if sig / 2 = 0 then idx2 else assignLoop fuel (sig / 2) (compId + 1) count2 idx2

/-- The internalIndex array after the ArchetypeManager(BinaryId) constructor
ran on signature sig, starting from the member initializer state. -/
def ctorInternalIndex (sig : Nat) : Nat → Nat := assignLoop 64 sig 0 0 initInternalIndex

/-- ArchetypeManager::GetComponent, pointer part: nullptr (none) when the
internal index of the component is Unused, otherwise a pointer into the
column at position internalIndex compId, element row. -/
def ArchetypeManager.GetComponentPtr (idx : Nat → Nat) (compId row : Nat) :
    Option (Nat × Nat) :=
  if idx compId = ArchetypeManager.Unused then none else some (idx compId, row)

/-- A world holding one archetype block with one component column and a single
live entity in row 0 of that block: slot 0 has generation 5. -/
def c1World : WorldState :=
  { records := [⟨0, 0, 5⟩], last := 1, capacity := 2, freeList := [],
    archs := [{ sig := 1, cols := [[42]], recordIndices := [0], capacity := 1, size := 1 }] }

/-- A world holding one archetype block with one component column and three
live entities in rows 0, 1, 2 (slots 0, 1, 2, all at generation 0) carrying
component values v0, v1, v2. -/
def c3World (v0 v1 v2 : Nat) : WorldState :=
  { records := [⟨0, 0, 0⟩, ⟨0, 1, 0⟩, ⟨0, 2, 0⟩], last := 3, capacity := 3, freeList := [],
    archs := [{ sig := 1, cols := [[v0, v1, v2]], recordIndices := [0, 1, 2],
                capacity := 3, size := 3 }] }

/-- A world with one live entity whose slot 0 is at generation 3. -/
def c10World : WorldState :=
  { records := [⟨0, 0, 3⟩], last := 1, capacity := 1, freeList := [],
    archs := [{ sig := 1, cols := [[42]], recordIndices := [0], capacity := 1, size := 1 }] }


/-- Slot Table state exercised by the claim C7 witness: three active slots,
index 1 on the free list. -/
def c7WorldA : WorldState :=
  { records := [⟨0, 0, 0⟩, ⟨0, 1, 0⟩, ⟨0, 2, 7⟩], last := 3, capacity := 3,
    freeList := [1], archs := [] }

/-- Slot Table state exercised by the claim C7 witness: free list holding 5
then 7. -/
def c7WorldC : WorldState :=
  { records := [], last := 0, capacity := 0, freeList := [5, 7], archs := [] }

/-- A full block (size = capacity = 2) with one column, exercised by the
claim C5 witness. -/
def c5Block : ArchBlock :=
  { sig := 1, cols := [[9, 8]], recordIndices := [4, 5], capacity := 2, size := 2 }

/-- Claim C1, refuted at the last-occupied-row case the claim explicitly
includes: in c1World a single live entity (slot 0, generation 5) occupies row
0, the last occupied row of its block.  Destroy passes the generation check
and calls RemoveRow, which decrements size to 0 but, the removed row being the
last occupied row, never releases the Slot Table entry: the slot keeps
archetype 0, row 0 and generation 5, the active range and the free list are
untouched, and a duplicate handle to the same slot still validates and
accesses.  The claim and the spec say the entry is released and its generation
incremented. -/
theorem claim_C1 :
    ((EntityReference.Destroy ⟨0, 5⟩ c1World).2.records.getD 0 default
        = { archetype := 0, row := 0, version := 5 })
  ∧ (EntityReference.Destroy ⟨0, 5⟩ c1World).2.last = 1
  ∧ (EntityReference.Destroy ⟨0, 5⟩ c1World).2.freeList = []
  ∧ ((EntityReference.Destroy ⟨0, 5⟩ c1World).2.archs.getD 0 default).size = 0
  ∧ EntityReference.AccessWith ⟨0, 5⟩ (EntityReference.Destroy ⟨0, 5⟩ c1World).2
      (fun a r => a + r) = some 0 := by decide

theorem destroyedNoop (h2 : EntityReference) (hinv : h2.recordIndex = InvalidIndex)
    (w2 : WorldState) :
    (∀ op : Nat → Nat → Nat, h2.AccessWith w2 op = none) ∧ h2.Destroy w2 = (h2, w2) := by
  constructor
  · intro op
    unfold EntityReference.AccessWith
    rw [hinv]
    simp
  · unfold EntityReference.Destroy
    rw [hinv]
    simp

/-- Claim C2: after h.Destroy on any handle and any state, the cached slot
index of the returned handle is consumed; every subsequent Access on that
handle object returns false without invoking the operation (AccessWith
returns none; the operation is applied only inside some), and every further
Destroy on it is a no-op returning any later world state unchanged. -/
theorem claim_C2 (h : EntityReference) (w : WorldState) :
    ((h.Destroy w).1.recordIndex = InvalidIndex)
  ∧ (∀ (w2 : WorldState) (op : Nat → Nat → Nat), (h.Destroy w).1.AccessWith w2 op = none)
  ∧ (∀ w2 : WorldState, (h.Destroy w).1.Destroy w2 = ((h.Destroy w).1, w2)) := by
  have hinv : (h.Destroy w).1.recordIndex = InvalidIndex := by
    unfold EntityReference.Destroy
    by_cases hc : h.recordIndex = InvalidIndex
    · simp [hc]
    · simp only [ne_eq, hc, not_false_eq_true, if_true]
      split <;> rfl
  exact ⟨hinv, fun w2 op => (destroyedNoop _ hinv w2).1 op,
    fun w2 => (destroyedNoop _ hinv w2).2⟩

/-- Claim C3: with entities e0, e1, e2 in rows 0, 1, 2 of one block carrying
component values v0, v1, v2, destroying e1 leaves the block with size 2
(exactly one less), reading e0 and e2 back through their handles yields v0
and v2, and the slot entry of e2 now names row 1: swap-removal relocated it
into the former row of e1. -/
theorem claim_C3 (v0 v1 v2 : Nat) :
    ((EntityReference.Destroy ⟨1, 0⟩ (c3World v0 v1 v2)).2.archs.getD 0 default).size = 2
  ∧ EntityReference.ReadComponent ⟨0, 0⟩ (EntityReference.Destroy ⟨1, 0⟩ (c3World v0 v1 v2)).2 0
      = some v0
  ∧ EntityReference.ReadComponent ⟨2, 0⟩ (EntityReference.Destroy ⟨1, 0⟩ (c3World v0 v1 v2)).2 0
      = some v2
  ∧ ((EntityReference.Destroy ⟨1, 0⟩ (c3World v0 v1 v2)).2.records.getD 2 default).row = 1 := by
  refine ⟨rfl, rfl, rfl, rfl⟩

/-- Claim C9, refuted for absent components of id at least 1: for the
archetype constructed from signature 1 (component 0 only), the internal index
of the absent component 1 is 0, not Unused, so GetComponent returns a pointer
into the column at slot 0 instead of nullptr.  The Unused sentinel survives
only at array position 0: constructed from signature 2, the internal index of
the absent component 0 is Unused and GetComponent correctly yields none. -/
theorem claim_C9 :
    ctorInternalIndex 1 1 = 0
  ∧ ctorInternalIndex 1 1 ≠ ArchetypeManager.Unused
  ∧ ArchetypeManager.GetComponentPtr (ctorInternalIndex 1) 1 0 = some (0, 0)
  ∧ ctorInternalIndex 2 0 = ArchetypeManager.Unused
  ∧ ArchetypeManager.GetComponentPtr (ctorInternalIndex 2) 0 0 = none := by decide

/-- Claim C10: destroying through a stale handle, one whose stored generation
differs from the current generation of its slot, leaves the whole engine
state (Slot Table and every archetype block) unchanged: the generation
comparison happens before RemoveRow would be invoked. -/
theorem claim_C10 (h : EntityReference) (w : WorldState)
    (h1 : h.recordIndex ≠ InvalidIndex)
    (h2 : h.version ≠ (w.records.getD h.recordIndex default).version) :
    (h.Destroy w).2 = w := by
  unfold EntityReference.Destroy
  rw [if_pos h1]
  dsimp only
  rw [if_neg h2]

/-- Witness for claim C10 at a concrete stale handle. -/
theorem claim_C10_witness :
    ((⟨0, 7⟩ : EntityReference).recordIndex ≠ InvalidIndex)
  ∧ ((⟨0, 7⟩ : EntityReference).version ≠ (c10World.records.getD 0 default).version)
  ∧ ((⟨0, 7⟩ : EntityReference).Destroy c10World).2 = c10World :=
  ⟨by decide, by decide, claim_C10 ⟨0, 7⟩ c10World (by decide) (by decide)⟩

/-- Claim C6: when allocation fails during growth, ResizeArray reports the
failure through an explicit result (none, the C++ false), and Reserve, at a
state where growth is required (free list empty, active range at capacity),
returns the record marked with the invalid sentinel in every field; both are
total functions signalling failure by value, never aborting or throwing. -/
theorem claim_C6 :
    (∀ (arr : List Nat) (newSize moveCount : Nat),
        Component.ResizeArray false arr newSize moveCount = none)
  ∧ (∀ w : WorldState, w.freeList = [] → w.capacity ≤ w.last →
        EntityRecord.Reserve false w
          = ReserveResult.fail { archetype := InvalidIndex, row := InvalidIndex,
                                 version := InvalidIndex }) := by
  constructor
  · intro arr newSize moveCount
    simp [Component.ResizeArray]
  · intro w hf hc
    unfold EntityRecord.Reserve
    rw [hf]
    simp [hc]

theorem foldSig_cons (x : Nat) (l : List Nat) :
    foldSig (x :: l) = Component.IdBinary x ||| foldSig l := rfl

theorem foldSig_perm {l1 l2 : List Nat} (p : l1.Perm l2) : foldSig l1 = foldSig l2 := by
  induction p with
  | nil => rfl
  | cons x p ih => rw [foldSig_cons, foldSig_cons, ih]
  | swap x y l =>
    rw [foldSig_cons, foldSig_cons, foldSig_cons, foldSig_cons,
      ← Nat.lor_assoc, ← Nat.lor_assoc, Nat.lor_comm (Component.IdBinary y)]
  | trans p1 p2 ih1 ih2 => exact ih1.trans ih2

/-- Claim C8: for every two component-id lists that are permutations of each
other, the computed archetype signature (the bitwise OR of the single-bit
binary ids, combined after canonical sorting by id) is identical, hence
ArchetypeManager.Find resolves both lists to the same archetype block. -/
theorem claim_C8 (l1 l2 managers : List Nat) (hp : l1.Perm l2) :
    signatureOf l1 = signatureOf l2
  ∧ ArchetypeManager.Find managers (signatureOf l1)
      = ArchetypeManager.Find managers (signatureOf l2) := by
  have hs : signatureOf l1 = signatureOf l2 :=
    foldSig_perm ((List.perm_insertionSort _ l1).trans
      (hp.trans (List.perm_insertionSort _ l2).symm))
  exact ⟨hs, by rw [hs]⟩

/-- Witness for claim C8 at the concrete permuted lists [0, 1] and [1, 0]. -/
theorem claim_C8_witness :
    ([0, 1] : List Nat).Perm [1, 0]
  ∧ signatureOf [0, 1] = signatureOf [1, 0]
  ∧ ArchetypeManager.Find [7] (signatureOf [0, 1])
      = ArchetypeManager.Find [7] (signatureOf [1, 0]) := by
  have hp : ([0, 1] : List Nat).Perm [1, 0] := List.Perm.swap 1 0 []
  exact ⟨hp, claim_C8 [0, 1] [1, 0] [7] hp⟩


theorem getD_append_left {α} (pre post : List α) (i : Nat) (d : α) (h : i < pre.length) :
    (pre ++ post).getD i d = pre.getD i d := by
  induction pre generalizing i with
  | nil => simp at h
  | cons a t ih =>
    cases i with
    | zero => rfl
    | succ n => simpa using ih n (by simpa using h)

theorem getD_append_length {α} (pre : List α) (s : α) (t : List α) (d : α) :
    (pre ++ s :: t).getD pre.length d = s := by
  induction pre with
  | nil => rfl
  | cons a p ih => simpa using ih

theorem updateScan_cons (q i s : Nat) (rest : List Nat) :
    updateScan q i (s :: rest)
      = (if ArchetypeManager.Contains s q then [i] else []) ++ updateScan q (i + 1) rest := by
  by_cases hC : ArchetypeManager.Contains s q
  · simp [updateScan, hC]
  · simp [updateScan, hC]

theorem matchedSpec_snoc (q s : Nat) (pre : List Nat) :
    matchedIndicesSpec q (pre ++ [s])
      = matchedIndicesSpec q pre
        ++ (if ArchetypeManager.Contains s q then [pre.length] else []) := by
  unfold matchedIndicesSpec
  have hlen : (pre ++ [s]).length = pre.length + 1 := by simp
  rw [hlen, List.range_succ, List.filter_append]
  congr 1
  · apply List.filter_congr
    intro i hi
    rw [getD_append_left pre [s] i 0 (List.mem_range.mp hi)]
  · have hs : (pre ++ [s]).getD pre.length 0 = s := getD_append_length pre s [] 0
    by_cases hC : ArchetypeManager.Contains s q
    · simp [List.filter_singleton, hs, hC]
    · simp [List.filter_singleton, hs, hC]

theorem matchedSpec_append (q : Nat) (l : List Nat) : ∀ pre : List Nat,
    matchedIndicesSpec q (pre ++ l) = matchedIndicesSpec q pre ++ updateScan q pre.length l := by
  induction l with
  | nil => intro pre; simp [updateScan]
  | cons s rest ih =>
    intro pre
    have h1 : pre ++ s :: rest = (pre ++ [s]) ++ rest := by simp
    rw [h1, ih (pre ++ [s]), matchedSpec_snoc]
    have h2 : (pre ++ [s]).length = pre.length + 1 := by simp
    rw [h2, updateScan_cons]
    simp [List.append_assoc]

/-- Claim C4: if a cache state is the canonical cache of a prefix of the
block-signature list (cursor at the prefix length, matched indices equal to
matchedIndicesSpec of the prefix), then after Update over the extended list
the matched indices are exactly the indices of the blocks whose signature
satisfies the bitmask subset test against Q, each exactly once, in block
creation order; the cursor is at the end; and the newly appended entries are
the result of scanning only the blocks created since the previous Update. -/
theorem claim_C4 (q : Nat) (pre post : List Nat) (c : LookupCacheState)
    (h1 : c.lastIndexChecked = pre.length)
    (h2 : c.matchedIndices = matchedIndicesSpec q pre) :
    (c.Update (pre ++ post) q).matchedIndices = matchedIndicesSpec q (pre ++ post)
  ∧ (c.Update (pre ++ post) q).lastIndexChecked = (pre ++ post).length
  ∧ (c.Update (pre ++ post) q).matchedIndices
      = c.matchedIndices ++ updateScan q pre.length post := by
  unfold LookupCacheState.Update
  rw [h1]
  by_cases hp : post = []
  · subst hp
    simp [h1, h2, updateScan]
  · have hlt : pre.length < (pre ++ post).length := by
      rw [List.length_append]
      have := List.length_pos.mpr hp
      omega
    rw [if_pos hlt]
    have hdrop : (pre ++ post).drop pre.length = post := List.drop_left pre post
    rw [hdrop]
    refine ⟨?_, rfl, rfl⟩
    dsimp only
    rw [h2, ← matchedSpec_append]

/-- Witness for claim C4 at a concrete cache, prefix and extension. -/
theorem claim_C4_witness :
    ((⟨2, [0]⟩ : LookupCacheState).lastIndexChecked = ([1, 2] : List Nat).length)
  ∧ ((⟨2, [0]⟩ : LookupCacheState).matchedIndices = matchedIndicesSpec 1 [1, 2])
  ∧ ((⟨2, [0]⟩ : LookupCacheState).Update ([1, 2] ++ [3, 1]) 1).matchedIndices
      = matchedIndicesSpec 1 ([1, 2] ++ [3, 1])
  ∧ ((⟨2, [0]⟩ : LookupCacheState).Update ([1, 2] ++ [3, 1]) 1).lastIndexChecked
      = (([1, 2] : List Nat) ++ [3, 1]).length
  ∧ ((⟨2, [0]⟩ : LookupCacheState).Update ([1, 2] ++ [3, 1]) 1).matchedIndices
      = (⟨2, [0]⟩ : LookupCacheState).matchedIndices ++ updateScan 1 ([1, 2] : List Nat).length [3, 1] := by
  have h := claim_C4 1 [1, 2] [3, 1] ⟨2, [0]⟩ (by decide) (by decide)
  exact ⟨by decide, by decide, h.1, h.2.1, h.2.2⟩


theorem getD_set_self {α} (l : List α) (i : Nat) (v d : α) (h : i < l.length) :
    (l.set i v).getD i d = v := by
  induction l generalizing i with
  | nil => simp at h
  | cons a t ih =>
    cases i with
    | zero => rfl
    | succ n => simpa using ih n (by simpa using h)

theorem shrinkLoop_cons (l f : Nat) (fs : List Nat) :
    shrinkLoop l (f :: fs)
      = if 0 < l ∧ f = l - 1 then shrinkLoop (l - 1) fs else (l, f :: fs) := rfl

theorem shrinkLoop_spec (fl : List Nat) : ∀ l : Nat,
    ∃ k, k ≤ fl.length
      ∧ shrinkLoop l fl = (l - k, fl.drop k)
      ∧ (∀ m, m < k → 0 < l - m ∧ fl.getD m 0 = l - m - 1)
      ∧ ¬(0 < l - k ∧ fl.drop k ≠ [] ∧ (fl.drop k).headD 0 = l - k - 1) := by
  induction fl with
  | nil =>
    intro l
    refine ⟨0, Nat.le_refl 0, rfl, ?_, ?_⟩
    · intro m hm; omega
    · intro hcon
      exact hcon.2.1 rfl
  | cons f fs ih =>
    intro l
    by_cases hc : 0 < l ∧ f = l - 1
    · obtain ⟨k, hk1, hk2, hk3, hk4⟩ := ih (l - 1)
      refine ⟨k + 1, by simp; omega, ?_, ?_, ?_⟩
      · rw [shrinkLoop_cons, if_pos hc, hk2]
        have he : l - 1 - k = l - (k + 1) := by omega
        rw [he, List.drop_succ_cons]
      · intro m hm
        cases m with
        | zero =>
          exact ⟨hc.1, by simpa using hc.2⟩
        | succ m2 =>
          obtain ⟨hp, hv⟩ := hk3 m2 (by omega)
          refine ⟨by omega, ?_⟩
          rw [List.getD_cons_succ, hv]
          omega
      · have he : l - (k + 1) = l - 1 - k := by omega
        rw [List.drop_succ_cons, he]
        exact hk4
    · refine ⟨0, Nat.zero_le _, ?_, ?_, ?_⟩
      · rw [shrinkLoop_cons, if_neg hc]
        rfl
      · intro m hm; omega
      · intro hcon
        obtain ⟨h1, _, h3⟩ := hcon
        rw [List.drop_zero, List.headD_cons] at h3
        exact hc ⟨by omega, by omega⟩

/-- Claim C7: Release on an allocated slot sets its archetype and row to
InvalidIndex and increments its generation modulo 2^16; when the slot index
is the current highest active index, the active range shrinks by one and then
repeatedly while the new highest index equals the top of the free list,
popping exactly that maximal run of trailing entries (the dropped prefix of
the free list matches the successive new highest indices, and afterwards the
loop condition fails); otherwise the index is pushed onto the free list; and
Reserve pops the top of the free list (LIFO reuse) without touching the
records or extending the active range. -/
theorem claim_C7 (w : WorldState) (i : Nat) (ok : Bool) (w2 : WorldState) (j : Nat)
    (rest : List Nat) :
    (i < w.records.length →
      (EntityRecord.Release w i).records.getD i default
        = { archetype := InvalidIndex, row := InvalidIndex,
            version := ((w.records.getD i default).version + 1) % 65536 })
  ∧ (i + 1 = w.last →
      ∃ k, k ≤ w.freeList.length
        ∧ (EntityRecord.Release w i).last = w.last - 1 - k
        ∧ (EntityRecord.Release w i).freeList = w.freeList.drop k
        ∧ (∀ m, m < k → 0 < w.last - 1 - m ∧ w.freeList.getD m 0 = w.last - 1 - m - 1)
        ∧ ¬(0 < w.last - 1 - k ∧ w.freeList.drop k ≠ []
              ∧ (w.freeList.drop k).headD 0 = w.last - 1 - k - 1))
  ∧ (i + 1 ≠ w.last →
      (EntityRecord.Release w i).freeList = i :: w.freeList
        ∧ (EntityRecord.Release w i).last = w.last)
  ∧ (w2.freeList = j :: rest →
      EntityRecord.Reserve ok w2 = ReserveResult.ok j { w2 with freeList := rest }) := by
  refine ⟨?_, ?_, ?_, ?_⟩
  · intro h
    unfold EntityRecord.Release
    dsimp only
    split
    · exact getD_set_self _ _ _ _ h
    · exact getD_set_self _ _ _ _ h
  · intro hi
    unfold EntityRecord.Release
    rw [if_pos hi]
    obtain ⟨k, hk1, hk2, hk3, hk4⟩ := shrinkLoop_spec w.freeList (w.last - 1)
    exact ⟨k, hk1, by rw [hk2], by rw [hk2], hk3, hk4⟩
  · intro hi
    unfold EntityRecord.Release
    rw [if_neg hi]
    exact ⟨rfl, rfl⟩
  · intro hf
    unfold EntityRecord.Reserve
    rw [hf]


/-- Witness for claim C7 at concrete Slot Table states, covering the
top-index release (with coalescing), the interior release and the free-list
pop of Reserve. -/
theorem claim_C7_witness :
    (2 < c7WorldA.records.length)
  ∧ ((EntityRecord.Release c7WorldA 2).records.getD 2 default
      = { archetype := InvalidIndex, row := InvalidIndex,
          version := ((c7WorldA.records.getD 2 default).version + 1) % 65536 })
  ∧ (2 + 1 = c7WorldA.last)
  ∧ (∃ k, k ≤ c7WorldA.freeList.length
        ∧ (EntityRecord.Release c7WorldA 2).last = c7WorldA.last - 1 - k
        ∧ (EntityRecord.Release c7WorldA 2).freeList = c7WorldA.freeList.drop k
        ∧ (∀ m, m < k → 0 < c7WorldA.last - 1 - m
              ∧ c7WorldA.freeList.getD m 0 = c7WorldA.last - 1 - m - 1)
        ∧ ¬(0 < c7WorldA.last - 1 - k ∧ c7WorldA.freeList.drop k ≠ []
              ∧ (c7WorldA.freeList.drop k).headD 0 = c7WorldA.last - 1 - k - 1))
  ∧ (0 + 1 ≠ c7WorldA.last)
  ∧ ((EntityRecord.Release c7WorldA 0).freeList = 0 :: c7WorldA.freeList
        ∧ (EntityRecord.Release c7WorldA 0).last = c7WorldA.last)
  ∧ (c7WorldC.freeList = 5 :: [7])
  ∧ (EntityRecord.Reserve true c7WorldC
      = ReserveResult.ok 5 { c7WorldC with freeList := [7] }) := by
  refine ⟨by decide, (claim_C7 c7WorldA 2 true c7WorldC 5 [7]).1 (by decide), by decide,
    (claim_C7 c7WorldA 2 true c7WorldC 5 [7]).2.1 (by decide), by decide,
    (claim_C7 c7WorldA 0 true c7WorldC 5 [7]).2.2.1 (by decide), by decide,
    (claim_C7 c7WorldA 2 true c7WorldC 5 [7]).2.2.2 (by decide)⟩

theorem getD_set_ne {α} (l : List α) (i j : Nat) (v d : α) (h : i ≠ j) :
    (l.set i v).getD j d = l.getD j d := by
  induction l generalizing i j with
  | nil => rfl
  | cons a t ih =>
    cases i with
    | zero =>
      cases j with
      | zero => exact absurd rfl h
      | succ m => rfl
    | succ n2 =>
      cases j with
      | zero => rfl
      | succ m => simpa using ih n2 m (by omega)

theorem getD_replicate {α} (n j : Nat) (a : α) : (List.replicate n a).getD j a = a := by
  induction n generalizing j with
  | zero => rfl
  | succ m ih =>
    cases j with
    | zero => rfl
    | succ p => simp only [List.replicate_succ, List.getD_cons_succ]; exact ih p

theorem getD_take {α} (l : List α) (n i : Nat) (d : α) (h : i < n) :
    (l.take n).getD i d = l.getD i d := by
  induction l generalizing n i with
  | nil => simp [List.take_nil]
  | cons a t ih =>
    cases n with
    | zero => omega
    | succ n2 =>
      cases i with
      | zero => rfl
      | succ m => simpa using ih n2 m (by omega)

theorem getD_append_right {α} (pre post : List α) (i : Nat) (d : α) (h : pre.length ≤ i) :
    (pre ++ post).getD i d = post.getD (i - pre.length) d := by
  induction pre generalizing i with
  | nil => simp
  | cons a t ih =>
    cases i with
    | zero => simp at h
    | succ m => simpa [Nat.succ_sub_succ] using ih m (by simpa using h)

theorem getD_eq_default_of_le {α} (l : List α) (i : Nat) (d : α) (h : l.length ≤ i) :
    l.getD i d = d := by
  induction l generalizing i with
  | nil => rfl
  | cons a t ih =>
    cases i with
    | zero => simp at h
    | succ m => simpa using ih m (by simpa using h)

theorem getD_take_append_replicate (l : List Nat) (n m i : Nat) (h : i < n) :
    (l.take n ++ List.replicate m 0).getD i 0 = l.getD i 0 := by
  by_cases hl : i < l.length
  · rw [getD_append_left _ _ _ _ (by simp [List.length_take]; omega)]
    exact getD_take l n i 0 h
  · have h1 : l.getD i 0 = 0 := getD_eq_default_of_le l i 0 (by omega)
    have h2 : (l.take n).length ≤ i := by simp [List.length_take]; omega
    rw [getD_append_right _ _ _ _ h2, h1]
    have := getD_replicate m (i - (l.take n).length) 0
    exact this

theorem getD_map_cols (F : List Nat → List Nat) (l : List (List Nat)) (j : Nat)
    (h : j < l.length) : (l.map F).getD j [] = F (l.getD j []) := by
  induction l generalizing j with
  | nil => simp at h
  | cons a t ih =>
    cases j with
    | zero => rfl
    | succ m => simpa using ih m (by simpa using h)

theorem writeCols_length (row : Nat) (g : Nat → Nat) :
    ∀ (cols : List (List Nat)) (j0 : Nat), (writeCols row g j0 cols).length = cols.length := by
  intro cols
  induction cols with
  | nil => intro j0; rfl
  | cons c t ih => intro j0; simpa [writeCols] using ih (j0 + 1)

theorem writeCols_getD (row : Nat) (g : Nat → Nat) :
    ∀ (cols : List (List Nat)) (j0 j : Nat), j < cols.length →
      (writeCols row g j0 cols).getD j [] = (cols.getD j []).set row (g (j0 + j)) := by
  intro cols
  induction cols with
  | nil => intro j0 j h; simp at h
  | cons c t ih =>
    intro j0 j h
    cases j with
    | zero => simp [writeCols]
    | succ m =>
      have hrec := ih (j0 + 1) m (by simpa using h)
      simp only [writeCols, List.getD_cons_succ]
      rw [hrec]
      have harg : j0 + 1 + m = j0 + (m + 1) := by omega
      rw [harg]

theorem growCapacity_lt (c : Nat) : c < growCapacity c := by
  unfold growCapacity
  split <;> omega

theorem growCapacity_eq (c : Nat) : growCapacity c = max 2 ((3 * c + 1) / 2) := by
  unfold growCapacity
  rcases Nat.eq_zero_or_pos c with h | h
  · subst h; decide
  · rw [if_neg (by omega), Nat.max_def]
    split <;> omega

theorem reserveRow_grow (B : ArchBlock) (r : Nat) (h : B.capacity ≤ B.size) :
    (B.reserveRow r).size = B.size + 1
  ∧ (B.reserveRow r).capacity = growCapacity B.capacity
  ∧ (B.reserveRow r).cols
      = B.cols.map (fun col => Component.ResizeArrayOk col (growCapacity B.capacity) B.size)
  ∧ (B.reserveRow r).recordIndices
      = (B.recordIndices.take B.capacity
          ++ List.replicate (growCapacity B.capacity - B.capacity) 0).set B.size r := by
  unfold ArchBlock.reserveRow
  rw [if_pos h]
  exact ⟨rfl, rfl, rfl, rfl⟩

theorem reserveRow_nogrow (B : ArchBlock) (r : Nat) (h : ¬ B.capacity ≤ B.size) :
    (B.reserveRow r).size = B.size + 1
  ∧ (B.reserveRow r).capacity = B.capacity
  ∧ (B.reserveRow r).cols = B.cols
  ∧ (B.reserveRow r).recordIndices = B.recordIndices.set B.size r := by
  unfold ArchBlock.reserveRow
  rw [if_neg h]
  exact ⟨rfl, rfl, rfl, rfl⟩


theorem insertValue_parts (B : ArchBlock) (g : Nat → Nat) :
    (B.insertValue g).cols = writeCols B.size g 0 (B.reserveRow 0).cols
  ∧ (B.insertValue g).size = (B.reserveRow 0).size
  ∧ (B.insertValue g).capacity = (B.reserveRow 0).capacity := ⟨rfl, rfl, rfl⟩

theorem insertValue_step (B : ArchBlock) (g : Nat → Nat) (n k : Nat)
    (hs : B.size = n) (hc : n ≤ B.capacity) (hk : B.cols.length = k)
    (hlen : ∀ j, j < k → (B.cols.getD j []).length = B.capacity) :
    (B.insertValue g).size = n + 1
  ∧ n + 1 ≤ (B.insertValue g).capacity
  ∧ (B.insertValue g).cols.length = k
  ∧ (∀ j, j < k → ((B.insertValue g).cols.getD j []).length = (B.insertValue g).capacity)
  ∧ (∀ j, j < k → ((B.insertValue g).cols.getD j []).getD n 0 = g j)
  ∧ (∀ i j, i < n → j < k →
      ((B.insertValue g).cols.getD j []).getD i 0 = (B.cols.getD j []).getD i 0) := by
  obtain ⟨hcols, hsize, hcap⟩ := insertValue_parts B g
  by_cases hg : B.capacity ≤ B.size
  · have hcapn : B.capacity = n := by omega
    obtain ⟨r1, r2, r3, r4⟩ := reserveRow_grow B 0 hg
    have hCgt : B.capacity < growCapacity B.capacity := growCapacity_lt B.capacity
    have hkres : (B.reserveRow 0).cols.length = k := by rw [r3, List.length_map, hk]
    have hgetres : ∀ j, j < k → (B.reserveRow 0).cols.getD j []
        = Component.ResizeArrayOk (B.cols.getD j []) (growCapacity B.capacity) B.size := by
      intro j hj
      rw [r3]
      exact getD_map_cols _ _ j (by omega)
    have hlenres : ∀ j, j < k → ((B.reserveRow 0).cols.getD j []).length
        = growCapacity B.capacity := by
      intro j hj
      rw [hgetres j hj]
      unfold Component.ResizeArrayOk
      rw [List.length_append, List.length_take_of_le (by rw [hlen j hj]; omega),
        List.length_replicate]
      omega
    have hjcols : ∀ j, j < k → (B.insertValue g).cols.getD j []
        = ((B.reserveRow 0).cols.getD j []).set n (g j) := by
      intro j hj
      rw [hcols, hs, writeCols_getD n g _ 0 j (by omega)]
      norm_num
    refine ⟨by rw [hsize, r1, hs], by rw [hcap, r2]; omega,
      by rw [hcols, writeCols_length, hkres], ?_, ?_, ?_⟩
    · intro j hj
      rw [hjcols j hj, List.length_set, hlenres j hj, hcap, r2]
    · intro j hj
      rw [hjcols j hj]
      exact getD_set_self _ _ _ _ (by rw [hlenres j hj]; omega)
    · intro i j hi hj
      rw [hjcols j hj, getD_set_ne _ _ _ _ _ (by omega), hgetres j hj]
      unfold Component.ResizeArrayOk
      rw [hs]
      exact getD_take_append_replicate _ _ _ _ hi
  · obtain ⟨r1, r2, r3, r4⟩ := reserveRow_nogrow B 0 hg
    have hjcols : ∀ j, j < k → (B.insertValue g).cols.getD j []
        = (B.cols.getD j []).set n (g j) := by
      intro j hj
      rw [hcols, hs, r3, writeCols_getD n g _ 0 j (by omega)]
      norm_num
    refine ⟨by rw [hsize, r1, hs], by rw [hcap, r2]; omega,
      by rw [hcols, writeCols_length, r3, hk], ?_, ?_, ?_⟩
    · intro j hj
      rw [hjcols j hj, List.length_set, hlen j hj, hcap, r2]
    · intro j hj
      rw [hjcols j hj]
      exact getD_set_self _ _ _ _ (by rw [hlen j hj]; omega)
    · intro i j hi hj
      rw [hjcols j hj, getD_set_ne _ _ _ _ _ (by omega)]

theorem insertN_succ (blk : ArchBlock) (f : Nat → Nat → Nat) (n : Nat) :
    blk.insertN f (n + 1) = (blk.insertN f n).insertValue (f n) := rfl

theorem insertN_inv (k : Nat) (f : Nat → Nat → Nat) : ∀ N : Nat,
    ((ArchBlock.mkEmpty k).insertN f N).size = N
  ∧ N ≤ ((ArchBlock.mkEmpty k).insertN f N).capacity
  ∧ ((ArchBlock.mkEmpty k).insertN f N).cols.length = k
  ∧ (∀ j, j < k → (((ArchBlock.mkEmpty k).insertN f N).cols.getD j []).length
        = ((ArchBlock.mkEmpty k).insertN f N).capacity)
  ∧ (∀ i j, i < N → j < k →
        ((((ArchBlock.mkEmpty k).insertN f N).cols.getD j []).getD i 0) = f i j) := by
  intro N
  induction N with
  | zero =>
    refine ⟨rfl, Nat.le_refl 0, by simp [ArchBlock.mkEmpty, ArchBlock.insertN], ?_, ?_⟩
    · intro j hj
      show ((List.replicate k []).getD j []).length = 0
      rw [getD_replicate]
      rfl
    · intro i j hi hj
      omega
  | succ n ih =>
    obtain ⟨hs, hc, hk, hlen, hval⟩ := ih
    obtain ⟨s1, s2, s3, s4, s5, s6⟩ :=
      insertValue_step ((ArchBlock.mkEmpty k).insertN f n) (f n) n k hs hc hk hlen
    rw [insertN_succ]
    refine ⟨s1, by omega, s3, s4, ?_⟩
    intro i j hi hj
    rcases Nat.lt_succ_iff_lt_or_eq.mp hi with h | h
    · rw [s6 i j h hj]
      exact hval i j h hj
    · subst h
      exact s5 j hj

/-- Claim C5: when a block is full (size = capacity, every column of length
capacity), reserving a row grows the capacity to max 2 (the ceiling of 1.5
times capacity, the minimum 2 growth rule), every column reaching the new
capacity, while preserving the first size stored elements of every column and
of the record-index array; and inserting N entities into one archetype
starting from the empty block (capacity 0, exceeded by any N) preserves every
previously written component value across all resizes. -/
theorem claim_C5 :
    (∀ (blk : ArchBlock) (recIdx : Nat),
       blk.size = blk.capacity →
       (∀ j, j < blk.cols.length → (blk.cols.getD j []).length = blk.capacity) →
       ((blk.reserveRow recIdx).capacity = max 2 ((3 * blk.capacity + 1) / 2)
        ∧ (∀ j, j < blk.cols.length →
            ((blk.reserveRow recIdx).cols.getD j []).length = (blk.reserveRow recIdx).capacity)
        ∧ (∀ j i, i < blk.size →
            ((blk.reserveRow recIdx).cols.getD j []).getD i 0 = (blk.cols.getD j []).getD i 0)
        ∧ (∀ i, i < blk.size →
            (blk.reserveRow recIdx).recordIndices.getD i 0 = blk.recordIndices.getD i 0)))
  ∧ (∀ (k : Nat) (f : Nat → Nat → Nat) (N i j : Nat),
       0 < N → i < N → j < k →
       ((((ArchBlock.mkEmpty k).insertN f N).cols.getD j []).getD i 0) = f i j) := by
  constructor
  · intro blk recIdx hfull hlen
    have hg : blk.capacity ≤ blk.size := by omega
    obtain ⟨r1, r2, r3, r4⟩ := reserveRow_grow blk recIdx hg
    have hCgt : blk.capacity < growCapacity blk.capacity := growCapacity_lt blk.capacity
    refine ⟨by rw [r2, growCapacity_eq], ?_, ?_, ?_⟩
    · intro j hj
      rw [r2, r3, getD_map_cols _ _ j hj]
      unfold Component.ResizeArrayOk
      rw [List.length_append, List.length_take_of_le (by rw [hlen j hj]; omega),
        List.length_replicate]
      omega
    · intro j i hi
      by_cases hj : j < blk.cols.length
      · rw [r3, getD_map_cols _ _ j hj]
        unfold Component.ResizeArrayOk
        exact getD_take_append_replicate _ _ _ _ hi
      · have h1 : (blk.cols.map
            (fun col => Component.ResizeArrayOk col (growCapacity blk.capacity) blk.size)).getD
              j [] = [] := by
          apply getD_eq_default_of_le _ _ _
          rw [List.length_map]
          omega
        have h2 : blk.cols.getD j [] = ([] : List Nat) := by
          exact getD_eq_default_of_le _ _ _ (by omega)
        rw [r3, h1, h2]
    · intro i hi
      rw [r4, getD_set_ne _ _ _ _ _ (by omega), getD_take_append_replicate _ _ _ _ (by omega)]
  · intro k f N i j hN hi hj
    exact (insertN_inv k f N).2.2.2.2 i j hi hj

/-- Witness for claim C6 at a concrete failing resize and a concrete
exhausted Slot Table. -/
theorem claim_C6_witness :
    Component.ResizeArray false [1, 2] 3 1 = none
  ∧ (([] : List Nat) = [])
  ∧ EntityRecord.Reserve false ⟨[], 0, 0, [], []⟩
      = ReserveResult.fail { archetype := InvalidIndex, row := InvalidIndex,
                             version := InvalidIndex } :=
  ⟨claim_C6.1 [1, 2] 3 1, rfl, claim_C6.2 ⟨[], 0, 0, [], []⟩ rfl (by decide)⟩

/-- Witness for claim C5 at a concrete full block and a concrete insertion
sequence. -/
theorem claim_C5_witness :
    (c5Block.size = c5Block.capacity)
  ∧ ((c5Block.reserveRow 7).capacity = max 2 ((3 * c5Block.capacity + 1) / 2))
  ∧ (((c5Block.reserveRow 7).cols.getD 0 []).getD 0 0 = (c5Block.cols.getD 0 []).getD 0 0)
  ∧ (((c5Block.reserveRow 7).cols.getD 0 []).getD 1 0 = (c5Block.cols.getD 0 []).getD 1 0)
  ∧ ((c5Block.reserveRow 7).recordIndices.getD 1 0 = c5Block.recordIndices.getD 1 0)
  ∧ ((((ArchBlock.mkEmpty 1).insertN (fun i _ => 10 * i) 5).cols.getD 0 []).getD 3 0
      = 10 * 3) := by
  have h := claim_C5.1 c5Block 7 (by decide) (by decide)
  exact ⟨by decide, h.1, h.2.2.1 0 0 (by decide), h.2.2.1 0 1 (by decide),
    h.2.2.2 1 (by decide),
    claim_C5.2 1 (fun i _ => 10 * i) 5 3 0 (by decide) (by decide) (by decide)⟩

end SECS
